import Mathlib

/-!
Verification of the PhishBlocker extension's performance-relevant code paths:
the in-process scan cache kept by `scanURL` (background script), the fail-open
scan functions of both extension variants, the recent-scans bookkeeping, the
daily statistics, and (modelled from the specification, since the backing
`database_pool.py` module is not part of the checked-in sources) the
connection pool and batch processor.
-/

set_option autoImplicit false

universe u

variable {β : Type u}

/-! ## A model of the JavaScript `Map` used as `scanCache`

A JS `Map` iterates in insertion order; `set` on an existing key updates the
value in place (keeping the key's position), otherwise appends; `delete`
removes the (unique) entry for a key.  We model it as an association list in
insertion order. -/

/-- Insertion-ordered association list standing for a JS `Map` with string keys. -/
abbrev JsMap (β : Type u) := List (String × β)

/-- JS `Map.prototype.has`. -/
def mapHas : JsMap β → String → Bool
  | [], _ => false
  | p :: ps, k => p.1 == k || mapHas ps k

/-- JS `Map.prototype.get` (as an `Option`; JS returns `undefined` on a miss). -/
def mapGet : JsMap β → String → Option β
  | [], _ => none
  | p :: ps, k => if p.1 == k then some p.2 else mapGet ps k

/-- JS `Map.prototype.set`: update in place if the key is present, else append. -/
def mapSet : JsMap β → String → β → JsMap β
  | [], k, v => [(k, v)]
  | p :: ps, k, v => if p.1 == k then (k, v) :: ps else p :: mapSet ps k v

/-- JS `Map.prototype.delete`: remove the first (in a well-formed map, only) entry
with the given key. -/
def mapDelete : JsMap β → String → JsMap β
  | [], _ => []
  | p :: ps, k => if p.1 == k then ps else p :: mapDelete ps k

/-- Number of entries whose key is `k` (a well-formed map has at most one). -/
def countKey (m : JsMap β) (k : String) : Nat :=
  (m.filter (fun p => p.1 == k)).length

/-- Keys are pairwise distinct, as `Map` guarantees for the maps it builds. -/
def uniqKeys (m : JsMap β) : Prop := (m.map Prod.fst).Nodup

theorem mapGet_mapSet_self (m : JsMap β) (k : String) (v : β) :
    mapGet (mapSet m k v) k = some v := by
  induction m with
  | nil => simp [mapSet, mapGet]
  | cons p ps ih =>
    by_cases h : p.1 = k
    · simp [mapSet, mapGet, h]
    · simp only [mapSet, mapGet, beq_iff_eq, h, if_false, if_neg h]
      exact ih

theorem mapSet_length_le (m : JsMap β) (k : String) (v : β) :
    (mapSet m k v).length ≤ m.length + 1 := by
  induction m with
  | nil => simp [mapSet]
  | cons p ps ih =>
    by_cases h : p.1 = k
    · simp [mapSet, h]
    · simp only [mapSet, beq_iff_eq, h, if_false, if_neg h, List.length_cons]
      omega

theorem mapSet_mapSet_self (m : JsMap β) (k : String) (v : β) :
    mapSet (mapSet m k v) k v = mapSet m k v := by
  induction m with
  | nil => simp [mapSet]
  | cons p ps ih =>
    by_cases h : p.1 = k
    · simp [mapSet, h]
    · simp only [mapSet, beq_iff_eq, h, if_false, if_neg h]
      rw [ih]

theorem mapDelete_length_le (m : JsMap β) (k : String) :
    (mapDelete m k).length ≤ m.length := by
  induction m with
  | nil => simp [mapDelete]
  | cons p ps ih =>
    by_cases h : p.1 = k
    · simp [mapDelete, h]
    · simp only [mapDelete, beq_iff_eq, h, if_false, if_neg h, List.length_cons]
      omega

theorem mapDelete_length_of_has (m : JsMap β) (k : String) (h : mapHas m k = true) :
    (mapDelete m k).length + 1 = m.length := by
  induction m with
  | nil => simp [mapHas] at h
  | cons p ps ih =>
    by_cases hp : p.1 = k
    · simp [mapDelete, hp]
    · have hps : mapHas ps k = true := by
        simpa [mapHas, beq_iff_eq, hp] using h
      simp only [mapDelete, beq_iff_eq, hp, if_false, if_neg hp, List.length_cons]
      rw [← ih hps]

theorem mapHas_of_mem {m : JsMap β} {p : String × β} (h : p ∈ m) :
    mapHas m p.1 = true := by
  induction m with
  | nil => simp at h
  | cons q qs ih =>
    rcases List.mem_cons.mp h with h1 | h2
    · subst h1; simp [mapHas]
    · simp [mapHas, ih h2]

theorem countKey_eq_zero_of_not_memKeys (m : JsMap β) (k : String)
    (h : k ∉ m.map Prod.fst) : countKey m k = 0 := by
  induction m with
  | nil => simp [countKey]
  | cons p ps ih =>
    simp only [List.map_cons, List.mem_cons, not_or] at h
    have h1 : ¬ (p.1 = k) := fun e => h.1 e.symm
    have h2 := ih h.2
    simp only [countKey, List.filter_cons, beq_iff_eq] at h2 ⊢
    rw [if_neg (by simpa using h1)]
    exact h2

theorem countKey_mapSet_self (m : JsMap β) (k : String) (v : β)
    (hu : uniqKeys m) : countKey (mapSet m k v) k = 1 := by
  induction m with
  | nil => simp [mapSet, countKey, List.filter]
  | cons p ps ih =>
    have hnodup : (p.1 :: ps.map Prod.fst).Nodup := hu
    rw [List.nodup_cons] at hnodup
    by_cases h : p.1 = k
    · have hz : countKey ps k = 0 :=
        countKey_eq_zero_of_not_memKeys ps k (h ▸ hnodup.1)
      simpa [mapSet, h, countKey, List.filter] using hz
    · have hps : uniqKeys ps := hnodup.2
      have := ih hps
      simpa [mapSet, beq_iff_eq, h, countKey, List.filter] using this

/-! ## The in-process scan cache of `scanURL` (extension background script)

`scanURL` keeps `scanCache : Map` from a URL hash to
`{result, timestamp}`.  A lookup is served from the cache only while
`Date.now() - cached.timestamp < 300000`.  After storing a fresh result, if
`scanCache.size > 1000` the entries are sorted by ascending `timestamp` and
the first 500 are deleted.  Times are modelled as natural-number
milliseconds; the cache maps keys to `(value, timestamp)` pairs. -/

/-- The value type is left polymorphic: `scanURL` stores scan-result objects,
and the cache operations do not inspect the value. -/
abbrev CacheMap (α : Type u) := JsMap (α × Nat)

/-- The 5-minute freshness window hard-coded in `scanURL` (milliseconds). -/
def CACHE_TTL_MS : Nat := 300000

/-- The size threshold in `if (scanCache.size > 1000)`. -/
def MAX_CACHE_SIZE : Nat := 1000

/-- The number of oldest entries deleted per cleanup (`for let i = 0; i < 500`). -/
def EVICT_COUNT : Nat := 500

variable {α : Type u}

/-- The cache-hit check of `scanURL` (lines 103–109), with the freshness
window as a parameter; the code instantiates it with `CACHE_TTL_MS`.
JS computes `Date.now() - cached.timestamp < ttl`; truncated `Nat`
subtraction agrees with JS here, since a negative difference also satisfies
the strict bound. -/
def cacheLookupWith (ttl : Nat) (m : CacheMap α) (k : String) (now : Nat) : Option α :=
  match mapGet m k with
  | some e => if now - e.2 < ttl then some e.1 else none
  | none => none

/-- The cache-hit check exactly as in the source (`ttl = 300000`). -/
def cacheLookup (m : CacheMap α) (k : String) (now : Nat) : Option α :=
  cacheLookupWith CACHE_TTL_MS m k now

/-- Stable insertion into a list ascending by timestamp, the comparator being
`(a, b) => a[1].timestamp - b[1].timestamp` of the source's `entries.sort`. -/
def insertByTs (x : String × α × Nat) : List (String × α × Nat) → List (String × α × Nat)
  | [] => [x]
  | y :: ys => if x.2.2 ≤ y.2.2 then x :: y :: ys else y :: insertByTs x ys

/-- Stable sort by ascending timestamp (JS `Array.prototype.sort` is stable). -/
def sortByTimestamp : List (String × α × Nat) → List (String × α × Nat)
  | [] => []
  | x :: xs => insertByTs x (sortByTimestamp xs)

/-- The cache write of `scanURL` (lines 129–142), with the size threshold and
eviction count as parameters; the code instantiates them with
`MAX_CACHE_SIZE` and `EVICT_COUNT`.  The entry is stored first; then, if the
size exceeds the threshold, the `evictN` entries with the oldest timestamps
are deleted. -/
def cacheStoreWith (cap evictN : Nat) (m : CacheMap α) (k : String) (v : α) (now : Nat) :
    CacheMap α :=
  let m1 := mapSet m k (v, now)
  if m1.length > cap then
    ((sortByTimestamp m1).take evictN).foldl (fun acc p => mapDelete acc p.1) m1
  else m1

/-- The cache write exactly as in the source (`cap = 1000`, `evictN = 500`). -/
def cacheStore (m : CacheMap α) (k : String) (v : α) (now : Nat) : CacheMap α :=
  cacheStoreWith MAX_CACHE_SIZE EVICT_COUNT m k v now

theorem insertByTs_perm (x : String × α × Nat) (l : List (String × α × Nat)) :
    (insertByTs x l).Perm (x :: l) := by
  induction l with
  | nil => simp [insertByTs]
  | cons y ys ih =>
    by_cases h : x.2.2 ≤ y.2.2
    · simp [insertByTs, h]
    · simp only [insertByTs, if_neg h]
      exact (ih.cons y).trans (List.Perm.swap x y ys)

theorem sortByTimestamp_perm (l : List (String × α × Nat)) :
    (sortByTimestamp l).Perm l := by
  induction l with
  | nil => simp [sortByTimestamp]
  | cons x xs ih =>
    exact (insertByTs_perm x (sortByTimestamp xs)).trans (ih.cons x)

theorem foldl_mapDelete_length_le (l : List (String × α × Nat)) (m : CacheMap α) :
    (l.foldl (fun acc p => mapDelete acc p.1) m).length ≤ m.length := by
  induction l generalizing m with
  | nil => simp
  | cons p ps ih =>
    calc (List.foldl (fun acc q => mapDelete acc q.1) (mapDelete m p.1) ps).length
        ≤ (mapDelete m p.1).length := ih _
      _ ≤ m.length := mapDelete_length_le m p.1

/-! ## `hashURL` — the cache-key derivation of the background script

JS `hash = ((hash << 5) - hash) + char; hash = hash & hash` over the code
units, then `hash.toString(36)`.  Bitwise JS operators coerce to signed
32-bit integers; the intermediate sum is exact in doubles. -/

/-- Coercion of an integer to the signed 32-bit range, as JS `| 0` / `& x`. -/
def toInt32 (n : Int) : Int := (n + 2 ^ 31) % 2 ^ 32 - 2 ^ 31

/-- One step of the hash loop: `hash = (((hash << 5) | 0) - hash + char) & hash-self`. -/
def hashStep (h : Int) (c : Nat) : Int := toInt32 (toInt32 (h * 32) - h + c)

/-- Digit character for `Number.prototype.toString(36)`. -/
def base36Digit (d : Nat) : Char :=
  if d < 10 then Char.ofNat (48 + d) else Char.ofNat (87 + d)

/-- Base-36 digit expansion, most significant first. -/
def base36Chars (n : Nat) : List Char :=
  if _h : n < 36 then [base36Digit n]
  else base36Chars (n / 36) ++ [base36Digit (n % 36)]
termination_by n
decreasing_by
  simp_wf
  exact Nat.div_lt_self (by omega) (by omega)

/-- JS `Number.prototype.toString(36)` on an integral value. -/
def intToString36 (i : Int) : String :=
  if i < 0 then "-" ++ String.mk (base36Chars i.natAbs) else String.mk (base36Chars i.toNat)

/-- Function `hashURL` from the background script.  Characters are modelled by their
scalar value (equal to `charCodeAt` for all BMP characters). -/
def hashURL (url : String) : String :=
  intToString36 (url.data.foldl (fun h c => hashStep h c.toNat) 0)

/-! ## Scan results and the two fail-open scan functions -/

/-- The scan-result payload exchanged with the backend.  `confidence` is a
JSON number, modelled as a rational; the `url` field is present in the
background script's fallback object but absent from the React variant's. -/
structure ScanResult where
  url : Option String
  is_phishing : Bool
  confidence : Rat
  threat_level : String
  risk_factors : List String
deriving DecidableEq

/-- The object returned by `scanURL`'s `catch` block:
`{url, is_phishing: false, confidence: 0, threat_level: 'Unknown', risk_factors: []}`. -/
def defaultScanResult (url : String) : ScanResult :=
  { url := some url
    is_phishing := false
    confidence := 0
    threat_level := "Unknown"
    risk_factors := [] }

/-- The object returned by the React background worker's `scanUrl` `catch`
block (same fields, without `url`). -/
def viteDefaultResult : ScanResult :=
  { url := none
    is_phishing := false
    confidence := 0
    threat_level := "Unknown"
    risk_factors := [] }

/-- Outcome of the `fetch` round trip: a response with its `ok` flag, HTTP
status and parsed body, or a rejection (network failure). -/
inductive FetchOutcome where
  | resp (ok : Bool) (status : Nat) (body : ScanResult)
  | netFail (msg : String)
deriving DecidableEq

/-- The round trip failed: the promise rejected or `response.ok` was false. -/
def fetchFails : FetchOutcome → Bool
  | .resp ok _ _ => !ok
  | .netFail _ => true

/-- The `try` block of `scanURL`: serve a fresh cache hit; otherwise perform
the round trip, throwing `HTTP ${status}` on a non-ok response, and cache the
parsed body.  Errors are modelled in `Except`. -/
def scanURLTry (m : CacheMap ScanResult) (url : String) (now : Nat) (o : FetchOutcome) :
    Except String (ScanResult × CacheMap ScanResult) :=
  match cacheLookup m (hashURL url) now with
  | some r => .ok (r, m)
  | none =>
    match o with
    | .netFail msg => .error msg
    | .resp ok status body =>
      if ok then .ok (body, cacheStore m (hashURL url) body now)
      else .error ("HTTP " ++ toString status)

/-- Function `scanURL` with its `catch`: any error yields the safe default result and
leaves the cache unchanged. -/
def scanURL (m : CacheMap ScanResult) (url : String) (now : Nat) (o : FetchOutcome) :
    ScanResult × CacheMap ScanResult :=
  match scanURLTry m url now o with
  | .ok x => x
  | .error _ => (defaultScanResult url, m)

/-- Function `scanUrl` of the React background worker: no cache; a rejection or non-ok
response yields the safe default. -/
def viteScanUrl (o : FetchOutcome) : ScanResult :=
  match o with
  | .resp true _ body => body
  | .resp false _ _ => viteDefaultResult
  | .netFail _ => viteDefaultResult

/-- The user settings consulted by the navigation listener. -/
structure UserSettings where
  blockPhishing : Bool
  showWarnings : Bool
  autoScan : Bool
  threatLevel : String

/-- What the `onBeforeNavigate` listener does with a scan result. -/
inductive NavAction where
  | block
  | warn
  | allow
deriving DecidableEq

/-- The branch structure of the listener: block if phishing and blocking is
enabled; else notify if phishing and warnings are enabled; else proceed. -/
def navActionFor (r : ScanResult) (s : UserSettings) : NavAction :=
  if r.is_phishing && s.blockPhishing then .block
  else if r.is_phishing && s.showWarnings then .warn
  else .allow

/-! ## Recent-scans bookkeeping (three call sites) -/

variable {γ : Type u}

/-- JS `Array.prototype.slice(a, b)` on an array. -/
def jsSlice (l : List γ) (a b : Nat) : List γ := (l.drop a).take (b - a)

/-- The React background worker: `recentScans.unshift(newScan)` followed by
storing `recentScans.slice(0, 10)`. -/
def recordScanBg (s : γ) (recent : List γ) : List γ :=
  jsSlice (s :: recent) 0 10

/-- The popup's `handleScan`: `[newScan, ...recentScans].slice(0, 10)`. -/
def recordScanPopup (s : γ) (recent : List γ) : List γ :=
  jsSlice (s :: recent) 0 10

/-- The dashboard's `addToRecentScans`: `unshift`, then truncate with
`slice(0, 10)` only when the length exceeds 10. -/
def addToRecentScans (s : γ) (recent : List γ) : List γ :=
  let l := s :: recent
  if l.length > 10 then jsSlice l 0 10 else l

/-! ## Daily statistics (`updateStats` of the React background worker) -/

/-- The stored `stats` object.  `lastScan` is an ISO timestamp or `null`,
modelled as an optional millisecond time. -/
structure Stats where
  scansToday : Nat
  threatsBlocked : Nat
  lastScan : Option Nat
deriving DecidableEq

/-- The default used when storage holds no stats. -/
def defaultStats : Stats := { scansToday := 0, threatsBlocked := 0, lastScan := none }

/-- Function `updateStats(result)`: reset `scansToday` when the stored `lastScan` is
absent or fell on a different calendar day (`toDateString` comparison,
abstracted as a day function `dateOf`), then increment it; increment
`threatsBlocked` when the result is phishing; stamp `lastScan` with now. -/
def updateStats (dateOf : Nat → Nat) (stored : Option Stats) (isPhishing : Bool)
    (now : Nat) : Stats :=
  let cur := stored.getD defaultStats
  let lastScanDate : Option Nat := cur.lastScan.map dateOf
  let scans0 := if lastScanDate = some (dateOf now) then cur.scansToday else 0
  { scansToday := scans0 + 1
    threatsBlocked := cur.threatsBlocked + (if isPhishing then 1 else 0)
    lastScan := some now }

/-! ## Connection pool and batch processor

The repository's documentation lists `database_pool.py` ("Database connection
pooling") among the backend modules, but that file is not part of the
checked-in sources; only the specification describes its behaviour.  The two
components below are therefore modelled from the specification. -/

/-- Modelled from the spec: the `ConnectionPool` of `database_pool.py` is not
in the sources.  §4.4: a pool has a fixed core size and a bounded overflow. -/
structure PoolConfig where
  coreConnections : Nat
  overflow : Nat

/-- Modelled from the spec: pool state — idle core connections, checked-out
count, live overflow connections. -/
structure PoolState where
  idleCore : Nat
  checkedOut : Nat
  overflowLive : Nat
deriving DecidableEq

/-- Modelled from the spec: a freshly constructed pool has its core
connections available and nothing checked out. -/
def initialPool (cfg : PoolConfig) : PoolState :=
  { idleCore := cfg.coreConnections, checkedOut := 0, overflowLive := 0 }

/-- Modelled from the spec: result of `acquire` — a connection (core or
overflow) or the `PoolExhausted` condition. -/
inductive AcquireOutcome where
  | acquired (isOverflow : Bool)
  | poolExhausted
deriving DecidableEq

/-- Modelled from the spec (§4.4): `acquire(timeout)` hands out an idle core
connection if one exists; else creates an overflow connection if the overflow
bound is not reached; else blocks until another caller releases a connection
(`releases` lists the future release times) or the timeout elapses, in which
case `PoolExhausted` is returned to the caller, not retried internally.  The
returned `Nat` is the completion time. -/
def acquire (cfg : PoolConfig) (st : PoolState) (now timeout : Nat)
    (releases : List Nat) : AcquireOutcome × PoolState × Nat :=
  if 0 < st.idleCore then
    (.acquired false,
     { idleCore := st.idleCore - 1, checkedOut := st.checkedOut + 1,
       overflowLive := st.overflowLive }, now)
  else if st.overflowLive < cfg.overflow then
    (.acquired true,
     { idleCore := st.idleCore, checkedOut := st.checkedOut + 1,
       overflowLive := st.overflowLive + 1 }, now)
  else
    match releases.find? (fun t => t ≤ now + timeout) with
    | some t =>
      (.acquired false,
       { idleCore := st.idleCore, checkedOut := st.checkedOut,
         overflowLive := st.overflowLive }, max now t)
    | none => (.poolExhausted, st, now + timeout)

/-- Modelled from the spec: the `BatchProcessor` of `database_pool.py` is not
in the sources.  §4.5: an active buffer plus the sequence of flushed batches. -/
structure BatchState (δ : Type u) where
  buffer : List δ
  flushes : List (List δ)
deriving DecidableEq

/-- Modelled from the spec: an empty batch processor. -/
def initialBatch {δ : Type u} : BatchState δ := { buffer := [], flushes := [] }

/-- Modelled from the spec (§4.5): `add(record)` appends to the active buffer
and, when the buffer's size reaches `sizeThreshold`, swaps it out as an
automatic flush. -/
def batchAdd {δ : Type u} (sizeThreshold : Nat) (st : BatchState δ) (r : δ) :
    BatchState δ :=
  let buf := st.buffer ++ [r]
  if sizeThreshold ≤ buf.length then
    { buffer := [], flushes := st.flushes ++ [buf] }
  else
    { buffer := buf, flushes := st.flushes }

/-- Modelled from the spec: adding a sequence of records one by one. -/
def batchAddAll {δ : Type u} (sizeThreshold : Nat) (st : BatchState δ)
    (rs : List δ) : BatchState δ :=
  rs.foldl (batchAdd sizeThreshold) st

/-- All records a batch state accounts for: flushed batches in order, then
the pending buffer. -/
def batchRecords {δ : Type u} (st : BatchState δ) : List δ :=
  st.flushes.flatten ++ st.buffer

/-! ## Claim theorems -/

/-- The capacity-2 instance of the `scanURL` cache algorithm after
`set(a,1); set(b,2)` at times 0 and 1. -/
def lruScenarioAfterAB : CacheMap Nat :=
  cacheStoreWith 2 1 (cacheStoreWith 2 1 [] "a" 1 0) "b" 2 1

/-- State after the further `get(a)` (which performs no state change) and
`set(c,3)` at time 3, which triggers the cleanup. -/
def lruScenarioCache : CacheMap Nat :=
  cacheStoreWith 2 1 lruScenarioAfterAB "c" 3 3

/-- C1 (counterexample): the cache is not LRU.  In the capacity-2 instance of
the `scanURL` cache algorithm, after `set(a,1); set(b,2); get(a); set(c,3)`
the evicted entry is `a` (oldest insertion timestamp), not the
least-recently-accessed `b`: `get(b)` is a hit returning 2 (the claim says it
is a miss) and `get(a)` is a miss (the claim says it returns 1). -/
theorem scanCache_not_lru_counterexample :
    cacheLookup lruScenarioAfterAB "a" 2 = some 1 ∧
    cacheLookup lruScenarioCache "b" 4 = some 2 ∧
    cacheLookup lruScenarioCache "a" 4 = none ∧
    ¬ (cacheLookup lruScenarioCache "b" 4 = none ∧
       cacheLookup lruScenarioCache "a" 4 = some 1) := by
  decide

/-- C1 (amended): the cache evicts by oldest insertion timestamp, not by
recency of access.  `get` does not update any order, so in the capacity-2
instance the sequence `set(a,1); set(b,2); get(a); set(c,3)` evicts `a`:
afterwards `get(a)` is a miss while `get(b)` = 2 and `get(c)` = 3 are hits. -/
theorem scanCache_evicts_oldest_inserted :
    cacheLookup lruScenarioAfterAB "a" 2 = some 1 ∧
    cacheLookup lruScenarioCache "a" 4 = none ∧
    cacheLookup lruScenarioCache "b" 4 = some 2 ∧
    cacheLookup lruScenarioCache "c" 4 = some 3 := by
  decide

/-- C2: the resident-entry count never exceeds the configured bound: if the
cache holds at most 1000 entries, it still does after a completed `set`
(including one that triggers the cleanup); a lookup performs no state change. -/
theorem scanCache_size_bound (m : CacheMap α) (k : String) (v : α) (now : Nat)
    (h : m.length ≤ MAX_CACHE_SIZE) :
    (cacheStore m k v now).length ≤ MAX_CACHE_SIZE := by
  simp only [cacheStore, cacheStoreWith, MAX_CACHE_SIZE, EVICT_COUNT] at *
  set m1 := mapSet m k (v, now) with hm1
  have hm1len : m1.length ≤ m.length + 1 := mapSet_length_le m k (v, now)
  by_cases hc : m1.length > 1000
  · rw [if_pos hc]
    have hperm := sortByTimestamp_perm m1
    have hslen : (sortByTimestamp m1).length = m1.length := hperm.length_eq
    obtain ⟨x, xs, hx⟩ : ∃ x xs, sortByTimestamp m1 = x :: xs := by
      cases hsort : sortByTimestamp m1 with
      | nil => rw [hsort] at hslen; simp at hslen; omega
      | cons a as => exact ⟨a, as, rfl⟩
    rw [hx, show (500 : Nat) = 499 + 1 from rfl, List.take_succ_cons, List.foldl_cons]
    have hxmem : x ∈ m1 := hperm.mem_iff.mp (hx ▸ List.mem_cons_self x xs)
    have hdel : (mapDelete m1 x.1).length + 1 = m1.length :=
      mapDelete_length_of_has m1 x.1 (mapHas_of_mem hxmem)
    have hfold := foldl_mapDelete_length_le (xs.take 499) (mapDelete m1 x.1)
    exact hfold.trans (by omega)
  · rw [if_neg hc]
    omega

/-- C2 witness: a concrete `set` on an empty cache respects the bound. -/
theorem scanCache_size_bound_witness :
    ([] : CacheMap Nat).length ≤ MAX_CACHE_SIZE ∧
    (cacheStore ([] : CacheMap Nat) "a" 7 0).length ≤ MAX_CACHE_SIZE :=
  ⟨by decide, scanCache_size_bound [] "a" 7 0 (by decide)⟩

/-- C3: TTL expiry is honored on reads — the cache-hit check returns the
stored value exactly while `now - insertedAt` is strictly below the freshness
window, and reports a miss once `insertedAt + ttl ≤ now`.  The source
instantiates `ttl` with the fixed 300000 ms window. -/
theorem cacheLookup_ttl_honored (ttl : Nat) (m : CacheMap α) (k : String) (v : α)
    (ts now : Nat) (h : mapGet m k = some (v, ts)) :
    (cacheLookupWith ttl m k now = some v ↔ now - ts < ttl) ∧
    (ts + ttl ≤ now → cacheLookupWith ttl m k now = none) := by
  constructor
  · by_cases hlt : now - ts < ttl
    · simp [cacheLookupWith, h, hlt]
    · simp [cacheLookupWith, h, hlt]
  · intro hge
    have hlt : ¬ (now - ts < ttl) := by omega
    simp [cacheLookupWith, h, hlt]

/-- C3 witness: the spec's example — an entry stored at time 0 with a 5000 ms
window is a miss when read 6000 ms later. -/
theorem cacheLookup_ttl_honored_witness :
    mapGet (mapSet ([] : CacheMap String) "x" ("v", 0)) "x" = some ("v", 0) ∧
    ((cacheLookupWith 5000 (mapSet ([] : CacheMap String) "x" ("v", 0)) "x" 6000 = some "v" ↔
        6000 - 0 < 5000) ∧
     (0 + 5000 ≤ 6000 →
        cacheLookupWith 5000 (mapSet ([] : CacheMap String) "x" ("v", 0)) "x" 6000 = none)) :=
  ⟨by decide, cacheLookup_ttl_honored 5000 (mapSet [] "x" ("v", 0)) "x" "v" 0 6000 (by decide)⟩

/-- C6: `Map.set` is idempotent with respect to cache size — a repeated
`set(k, v)` with the identical value replaces the entry in place, leaving the
whole map (hence its size) unchanged, and a well-formed map holds exactly one
entry for `k` after a `set`. -/
theorem mapSet_idempotent_size (m : JsMap β) (k : String) (v : β)
    (hu : uniqKeys m) :
    mapSet (mapSet m k v) k v = mapSet m k v ∧
    (mapSet (mapSet m k v) k v).length = (mapSet m k v).length ∧
    countKey (mapSet m k v) k = 1 :=
  ⟨mapSet_mapSet_self m k v, by rw [mapSet_mapSet_self], countKey_mapSet_self m k v hu⟩

/-- C6 witness: a concrete repeated `set` on a one-entry map. -/
theorem mapSet_idempotent_size_witness :
    uniqKeys ([("y", 7)] : JsMap Nat) ∧
    (mapSet (mapSet [("y", 7)] "k" 3) "k" 3 = mapSet [("y", 7)] "k" 3 ∧
     (mapSet (mapSet ([("y", 7)] : JsMap Nat) "k" 3) "k" 3).length =
       (mapSet ([("y", 7)] : JsMap Nat) "k" 3).length ∧
     countKey (mapSet ([("y", 7)] : JsMap Nat) "k" 3) "k" = 1) :=
  ⟨by unfold uniqKeys; decide, mapSet_idempotent_size [("y", 7)] "k" 3 (by unfold uniqKeys; decide)⟩

/-- C4: when the backend round trip fails, `scanURL` still returns normally —
the `catch` yields either the locally cached result or the safe default, the
local cache state is untouched, and no exception propagates to the caller. -/
theorem scanURL_degrades_on_fetch_failure (m : CacheMap ScanResult) (url : String)
    (now : Nat) (o : FetchOutcome) (h : fetchFails o = true) :
    (∃ r, cacheLookup m (hashURL url) now = some r ∧ scanURL m url now o = (r, m)) ∨
    (cacheLookup m (hashURL url) now = none ∧
     scanURL m url now o = (defaultScanResult url, m)) := by
  unfold scanURL scanURLTry
  cases hc : cacheLookup m (hashURL url) now with
  | some r =>
    left
    exact ⟨r, rfl, rfl⟩
  | none =>
    right
    refine ⟨rfl, ?_⟩
    cases o with
    | netFail msg => rfl
    | resp ok status body =>
      have hok : ok = false := by simpa [fetchFails] using h
      subst hok
      rfl

/-- C4 witness: a network failure on an empty cache returns the default. -/
theorem scanURL_degrades_on_fetch_failure_witness :
    fetchFails (.netFail "ECONNREFUSED") = true ∧
    ((∃ r, cacheLookup ([] : CacheMap ScanResult) (hashURL "http://localhost") 0 = some r ∧
        scanURL [] "http://localhost" 0 (.netFail "ECONNREFUSED") = (r, [])) ∨
     (cacheLookup ([] : CacheMap ScanResult) (hashURL "http://localhost") 0 = none ∧
      scanURL [] "http://localhost" 0 (.netFail "ECONNREFUSED") =
        (defaultScanResult "http://localhost", []))) :=
  ⟨rfl, scanURL_degrades_on_fetch_failure [] "http://localhost" 0 (.netFail "ECONNREFUSED") rfl⟩

/-- C5: the implicit fail-open default — on a cache miss, a thrown request or
a non-ok response makes `scanURL` return exactly
`{is_phishing: false, confidence: 0, threat_level: 'Unknown', risk_factors: []}`
(plus the echoed URL), so the navigation listener neither blocks nor warns;
the React worker's `scanUrl` likewise returns its fixed default. -/
theorem scanURL_fail_open_default (m : CacheMap ScanResult) (url : String) (now : Nat)
    (o : FetchOutcome) (s : UserSettings)
    (hmiss : cacheLookup m (hashURL url) now = none)
    (hfail : fetchFails o = true) :
    scanURL m url now o = (defaultScanResult url, m) ∧
    (scanURL m url now o).1.is_phishing = false ∧
    (scanURL m url now o).1.confidence = 0 ∧
    (scanURL m url now o).1.threat_level = "Unknown" ∧
    (scanURL m url now o).1.risk_factors = [] ∧
    navActionFor (scanURL m url now o).1 s = NavAction.allow ∧
    viteScanUrl o = viteDefaultResult := by
  have key : scanURL m url now o = (defaultScanResult url, m) := by
    unfold scanURL scanURLTry
    rw [hmiss]
    cases o with
    | netFail msg => rfl
    | resp ok status body =>
      have hok : ok = false := by simpa [fetchFails] using hfail
      subst hok
      rfl
  have hvite : viteScanUrl o = viteDefaultResult := by
    cases o with
    | netFail msg => rfl
    | resp ok status body =>
      have hok : ok = false := by simpa [fetchFails] using hfail
      subst hok
      rfl
  refine ⟨key, ?_, ?_, ?_, ?_, ?_, hvite⟩ <;>
    rw [key] <;> simp [defaultScanResult, navActionFor]

/-- C5 witness: an HTTP 500 response on an empty cache, with blocking and
warnings enabled, yields the default result and no block or warning. -/
theorem scanURL_fail_open_default_witness :
    cacheLookup ([] : CacheMap ScanResult) (hashURL "http://a.example") 5 = none ∧
    fetchFails (.resp false 500 viteDefaultResult) = true ∧
    (scanURL [] "http://a.example" 5 (.resp false 500 viteDefaultResult) =
        (defaultScanResult "http://a.example", []) ∧
     (scanURL [] "http://a.example" 5 (.resp false 500 viteDefaultResult)).1.is_phishing = false ∧
     (scanURL [] "http://a.example" 5 (.resp false 500 viteDefaultResult)).1.confidence = 0 ∧
     (scanURL [] "http://a.example" 5 (.resp false 500 viteDefaultResult)).1.threat_level = "Unknown" ∧
     (scanURL [] "http://a.example" 5 (.resp false 500 viteDefaultResult)).1.risk_factors = [] ∧
     navActionFor (scanURL [] "http://a.example" 5 (.resp false 500 viteDefaultResult)).1
       ⟨true, true, true, "medium"⟩ = NavAction.allow ∧
     viteScanUrl (.resp false 500 viteDefaultResult) = viteDefaultResult) :=
  ⟨rfl, rfl,
   scanURL_fail_open_default [] "http://a.example" 5 (.resp false 500 viteDefaultResult)
     ⟨true, true, true, "medium"⟩ rfl rfl⟩

/-- Pool state after the first acquire of the exhaustion scenario
(`coreConnections = 2`, `overflow = 1`). -/
def poolS1 : PoolState := (acquire ⟨2, 1⟩ (initialPool ⟨2, 1⟩) 0 2000 []).2.1

/-- Pool state after the second acquire. -/
def poolS2 : PoolState := (acquire ⟨2, 1⟩ poolS1 0 2000 []).2.1

/-- Pool state after the third acquire. -/
def poolS3 : PoolState := (acquire ⟨2, 1⟩ poolS2 0 2000 []).2.1

/-- C7 (modelled from the spec, §4.4): with no idle core connection, the
overflow bound reached, and no release within the window, `acquire` completes
at `now + timeout` with `PoolExhausted` returned to the caller (the state is
unchanged — nothing is retried internally); and in the concrete scenario
(`coreConnections = 2`, `overflow = 1`) three acquires succeed while a fourth
with a 2 s timeout and no release returns `PoolExhausted` after 2000 ms. -/
theorem pool_exhaustion_semantics (cfg : PoolConfig) (st : PoolState)
    (now timeout : Nat) (releases : List Nat)
    (h1 : st.idleCore = 0) (h2 : cfg.overflow ≤ st.overflowLive)
    (h3 : releases.find? (fun t => t ≤ now + timeout) = none) :
    acquire cfg st now timeout releases = (.poolExhausted, st, now + timeout) ∧
    (acquire cfg st now timeout releases).2.2 - now ≥ timeout ∧
    (acquire ⟨2, 1⟩ (initialPool ⟨2, 1⟩) 0 2000 []).1 = .acquired false ∧
    (acquire ⟨2, 1⟩ poolS1 0 2000 []).1 = .acquired false ∧
    (acquire ⟨2, 1⟩ poolS2 0 2000 []).1 = .acquired true ∧
    acquire ⟨2, 1⟩ poolS3 0 2000 [] = (.poolExhausted, poolS3, 2000) ∧
    2000 - 0 ≥ 2000 := by
  have key : acquire cfg st now timeout releases = (.poolExhausted, st, now + timeout) := by
    unfold acquire
    rw [if_neg (by omega), if_neg (by omega), h3]
  refine ⟨key, ?_, by decide, by decide, by decide, by decide, by decide⟩
  rw [key]
  show now + timeout - now ≥ timeout
  omega

/-- C7 witness: the fourth acquire of the scenario, applied concretely. -/
theorem pool_exhaustion_semantics_witness :
    poolS3.idleCore = 0 ∧
    (⟨2, 1⟩ : PoolConfig).overflow ≤ poolS3.overflowLive ∧
    ([] : List Nat).find? (fun t => t ≤ 0 + 2000) = none ∧
    (acquire ⟨2, 1⟩ poolS3 0 2000 [] = (.poolExhausted, poolS3, 0 + 2000) ∧
     (acquire ⟨2, 1⟩ poolS3 0 2000 []).2.2 - 0 ≥ 2000 ∧
     (acquire ⟨2, 1⟩ (initialPool ⟨2, 1⟩) 0 2000 []).1 = .acquired false ∧
     (acquire ⟨2, 1⟩ poolS1 0 2000 []).1 = .acquired false ∧
     (acquire ⟨2, 1⟩ poolS2 0 2000 []).1 = .acquired true ∧
     acquire ⟨2, 1⟩ poolS3 0 2000 [] = (.poolExhausted, poolS3, 2000) ∧
     2000 - 0 ≥ 2000) :=
  ⟨by decide, by decide, rfl,
   pool_exhaustion_semantics ⟨2, 1⟩ poolS3 0 2000 [] (by decide) (by decide) rfl⟩

theorem batchAdd_records {δ : Type u} (t : Nat) (st : BatchState δ) (r : δ) :
    batchRecords (batchAdd t st r) = batchRecords st ++ [r] := by
  unfold batchAdd batchRecords
  by_cases h : t ≤ (st.buffer ++ [r]).length
  · rw [if_pos h]
    simp [List.append_assoc]
  · rw [if_neg h]
    simp [List.append_assoc]

theorem batchAddAll_records {δ : Type u} (t : Nat) (st : BatchState δ) (rs : List δ) :
    batchRecords (batchAddAll t st rs) = batchRecords st ++ rs := by
  induction rs generalizing st with
  | nil => simp [batchAddAll]
  | cons r rs ih =>
    have step : batchAddAll t st (r :: rs) = batchAddAll t (batchAdd t st r) rs := rfl
    rw [step, ih, batchAdd_records]
    simp

theorem batchAddAll_flush_shape {δ : Type u} (t : Nat) (ht : 0 < t)
    (st : BatchState δ) (hb : st.buffer.length < t) (rs : List δ) :
    (batchAddAll t st rs).flushes.length =
      st.flushes.length + (st.buffer.length + rs.length) / t ∧
    (batchAddAll t st rs).buffer.length = (st.buffer.length + rs.length) % t ∧
    ∀ b ∈ (batchAddAll t st rs).flushes, b ∈ st.flushes ∨ b.length = t := by
  induction rs generalizing st with
  | nil =>
    refine ⟨?_, ?_, ?_⟩
    · simp [batchAddAll, Nat.div_eq_of_lt hb]
    · simp [batchAddAll, Nat.mod_eq_of_lt hb]
    · intro b hbmem
      exact Or.inl (by simpa [batchAddAll] using hbmem)
  | cons r rs ih =>
    by_cases h : t ≤ st.buffer.length + 1
    · have heq : st.buffer.length + 1 = t := by omega
      have hst : batchAdd t st r = ⟨[], st.flushes ++ [st.buffer ++ [r]]⟩ := by
        unfold batchAdd
        rw [if_pos (by simpa using h)]
      have step : batchAddAll t st (r :: rs) =
          batchAddAll t (⟨[], st.flushes ++ [st.buffer ++ [r]]⟩ : BatchState δ) rs := by
        show batchAddAll t (batchAdd t st r) rs = _
        rw [hst]
      obtain ⟨ih1, ih2, ih3⟩ :=
        ih (⟨[], st.flushes ++ [st.buffer ++ [r]]⟩ : BatchState δ) (by simpa using ht)
      refine ⟨?_, ?_, ?_⟩
      · rw [step, ih1]
        simp only [List.length_append, List.length_cons, List.length_nil, Nat.zero_add]
        rw [show st.buffer.length + (rs.length + 1) = rs.length + t from by omega,
          Nat.add_div_right _ ht]
        generalize rs.length / t = q
        omega
      · rw [step, ih2]
        simp only [List.length_cons, List.length_nil, Nat.zero_add]
        rw [show st.buffer.length + (rs.length + 1) = rs.length + t from by omega,
          Nat.add_mod_right]
      · intro b hbmem
        rw [step] at hbmem
        rcases ih3 b hbmem with hin | hlen
        · rcases List.mem_append.mp hin with hfl | hnew
          · exact Or.inl hfl
          · right
            have hb' : b = st.buffer ++ [r] := by simpa using hnew
            rw [hb']
            simp only [List.length_append, List.length_cons, List.length_nil, Nat.zero_add]
            exact heq
        · exact Or.inr hlen
    · have hst : batchAdd t st r = ⟨st.buffer ++ [r], st.flushes⟩ := by
        unfold batchAdd
        rw [if_neg (by simpa using h)]
      have step : batchAddAll t st (r :: rs) =
          batchAddAll t (⟨st.buffer ++ [r], st.flushes⟩ : BatchState δ) rs := by
        show batchAddAll t (batchAdd t st r) rs = _
        rw [hst]
      have hb' : ((⟨st.buffer ++ [r], st.flushes⟩ : BatchState δ)).buffer.length < t := by
        simp only [List.length_append, List.length_cons, List.length_nil, Nat.zero_add]
        omega
      obtain ⟨ih1, ih2, ih3⟩ := ih (⟨st.buffer ++ [r], st.flushes⟩ : BatchState δ) hb'
      refine ⟨?_, ?_, ?_⟩
      · rw [step, ih1]
        simp only [List.length_append, List.length_cons, List.length_nil, Nat.zero_add]
        rw [show st.buffer.length + 1 + rs.length = st.buffer.length + (rs.length + 1) from by
          omega]
      · rw [step, ih2]
        simp only [List.length_append, List.length_cons, List.length_nil, Nat.zero_add]
        rw [show st.buffer.length + 1 + rs.length = st.buffer.length + (rs.length + 1) from by
          omega]
      · intro b hbmem
        rw [step] at hbmem
        exact ih3 b hbmem

/-- C8 (modelled from the spec, §4.5): with `sizeThreshold = 100`, adding any
250 records to a fresh batch processor yields exactly 2 automatic flushes of
100 records each with 50 records pending; and, in general, flushed batches
plus the pending buffer account for every added record exactly once, in
order — no record is double-counted or dropped. -/
theorem batch_auto_flush {δ : Type u} (rs : List δ) (t : Nat) (st : BatchState δ)
    (l : List δ) (hlen : rs.length = 250) :
    (batchAddAll 100 initialBatch rs).flushes.length = 2 ∧
    (∀ b ∈ (batchAddAll 100 initialBatch rs).flushes, b.length = 100) ∧
    (batchAddAll 100 initialBatch rs).buffer.length = 50 ∧
    batchRecords (batchAddAll 100 initialBatch rs) = rs ∧
    batchRecords (batchAddAll t st l) = batchRecords st ++ l := by
  obtain ⟨h1, h2, h3⟩ :=
    batchAddAll_flush_shape 100 (by omega) (initialBatch (δ := δ)) (by norm_num [initialBatch]) rs
  refine ⟨?_, ?_, ?_, ?_, batchAddAll_records t st l⟩
  · rw [h1, hlen]
    norm_num [initialBatch]
  · intro b hbmem
    rcases h3 b hbmem with hin | hlen'
    · simp [initialBatch] at hin
    · exact hlen'
  · rw [h2, hlen]
    norm_num [initialBatch]
  · rw [batchAddAll_records]
    simp [batchRecords, initialBatch]

/-- C8 witness: 250 concrete records, and a concrete conservation instance. -/
theorem batch_auto_flush_witness :
    (List.range 250).length = 250 ∧
    ((batchAddAll 100 initialBatch (List.range 250)).flushes.length = 2 ∧
     (∀ b ∈ (batchAddAll 100 initialBatch (List.range 250)).flushes, b.length = 100) ∧
     (batchAddAll 100 initialBatch (List.range 250)).buffer.length = 50 ∧
     batchRecords (batchAddAll 100 initialBatch (List.range 250)) = List.range 250 ∧
     batchRecords (batchAddAll 3 (⟨[0], [[1, 2]]⟩ : BatchState Nat) [7, 8]) =
       batchRecords (⟨[0], [[1, 2]]⟩ : BatchState Nat) ++ [7, 8]) :=
  ⟨by simp, batch_auto_flush (List.range 250) 3 ⟨[0], [[1, 2]]⟩ [7, 8] (by simp)⟩

/-- C9: every code path that records a completed scan — the React background
worker, the popup's `handleScan`, and the dashboard's `addToRecentScans` —
computes `(newScan :: old).take 10`: it prepends the newest record, the
result never exceeds 10 entries, and its head is the newest record (so
newest-first order is preserved). -/
theorem recentScans_bounded_newest_first (s : γ) (recent : List γ) :
    recordScanBg s recent = (s :: recent).take 10 ∧
    recordScanPopup s recent = (s :: recent).take 10 ∧
    addToRecentScans s recent = (s :: recent).take 10 ∧
    (recordScanBg s recent).length ≤ 10 ∧
    (recordScanPopup s recent).length ≤ 10 ∧
    (addToRecentScans s recent).length ≤ 10 ∧
    (recordScanBg s recent).head? = some s ∧
    (recordScanPopup s recent).head? = some s ∧
    (addToRecentScans s recent).head? = some s := by
  have hbg : recordScanBg s recent = (s :: recent).take 10 := by
    simp [recordScanBg, jsSlice]
  have hpopup : recordScanPopup s recent = (s :: recent).take 10 := by
    simp [recordScanPopup, jsSlice]
  have hdash : addToRecentScans s recent = (s :: recent).take 10 := by
    unfold addToRecentScans jsSlice
    by_cases h : (s :: recent).length > 10
    · rw [if_pos h]
      simp
    · rw [if_neg h]
      exact (List.take_of_length_le (by omega)).symm
  have hlen : ((s :: recent).take 10).length ≤ 10 :=
    List.length_take_le 10 (s :: recent)
  have hhead : ((s :: recent).take 10).head? = some s := by
    rw [show (10 : Nat) = 9 + 1 from rfl, List.take_succ_cons]
    rfl
  exact ⟨hbg, hpopup, hdash,
    hbg ▸ hlen, hpopup ▸ hlen, hdash ▸ hlen,
    hbg ▸ hhead, hpopup ▸ hhead, hdash ▸ hhead⟩

/-- C10: `updateStats` resets the daily counter exactly when the stored
`lastScan` is absent or fell on a different calendar day than now (so it
becomes 1), otherwise increments it; `threatsBlocked` grows by exactly 1 on a
phishing result and is unchanged otherwise (hence never decreases); and
`lastScan` is stamped with the current time. -/
theorem updateStats_bookkeeping (dateOf : Nat → Nat) (stored : Option Stats)
    (ph : Bool) (now : Nat) :
    (updateStats dateOf stored ph now).scansToday =
      (if (stored.getD defaultStats).lastScan.map dateOf = some (dateOf now)
       then (stored.getD defaultStats).scansToday + 1 else 1) ∧
    (updateStats dateOf stored ph now).threatsBlocked =
      (stored.getD defaultStats).threatsBlocked + (if ph then 1 else 0) ∧
    (stored.getD defaultStats).threatsBlocked ≤ (updateStats dateOf stored ph now).threatsBlocked ∧
    (updateStats dateOf stored ph now).lastScan = some now := by
  refine ⟨?_, rfl, ?_, rfl⟩
  · unfold updateStats
    by_cases h : (stored.getD defaultStats).lastScan.map dateOf = some (dateOf now)
    · rw [if_pos h]
      simp [h]
    · rw [if_neg h]
      simp [h]
  · unfold updateStats
    cases ph <;> simp
